import Mathlib

/-!
Shallow embedding of src/src/gpu_writer.rs.

A `GpuData` value (a "block") is characterised by the two things the rest of
the program can observe about it: its reported `size` (the Rust
`fn size(&self) -> usize`) and the sequence of `write_all` payloads its
`write_into` issues (each payload is one byte string handed to the writer in
one call).  `usize` is embedded as `Nat` (the sizes involved never overflow
64 bits in the claims treated here; the one narrowing cast in the source,
`as u32`, is embedded explicitly as `% 2 ^ 32`).

The destination (`W: Write`) is embedded as an abstract state type `σ`
together with a function `write_all : σ → Bytes → Except ε σ`; the Rust `?`
operator is the explicit `match` on the `Except` result.  Two concrete
writers are provided: an unbounded sink (a growing `Vec<u8>`-like buffer,
which never fails) and a fixed-capacity cursor (`std::io::Cursor` over a
mutable byte slice, whose `write_all` fails with `WriteZero` when the
remaining capacity is too small).
-/

namespace GpuWriter

/-- A byte string; each entry is one byte (values below 256 where it matters). -/
abbrev Bytes := List Nat

/-- One `GpuData` block: its reported byte size and the list of `write_all`
payloads its `write_into` performs, in order. -/
structure Block where
  size : Nat
  chunks : List Bytes
deriving Repr, DecidableEq

/-- `u32::to_ne_bytes` on a little-endian host (the native byte order the
format is written in). -/
def u32_to_ne_bytes (n : Nat) : Bytes :=
  [n % 256, n / 256 % 256, n / 256 ^ 2 % 256, n / 256 ^ 3 % 256]

/-- Decode 4 little-endian bytes back into the number they represent. -/
def u32_of_ne_bytes : Bytes → Nat
  | b0 :: b1 :: b2 :: b3 :: _ => b0 + 256 * b1 + 256 ^ 2 * b2 + 256 ^ 3 * b3
  | _ => 0

/-- The chain of appended blocks.  `cons head tail` embeds the Rust
`Cons(D, T)` node: field `.0` is the head block, field `.1` the tail table.
`empty` embeds `EmptyGpuTable`. -/
inductive GpuTable where
  | empty : GpuTable
  | cons (head : Block) (tail : GpuTable) : GpuTable
deriving Repr, DecidableEq

/-- `append_gpu_data(gpu_table, gpu_data) = Cons(gpu_data, gpu_table)`. -/
def append_gpu_data (gpu_table : GpuTable) (gpu_data : Block) : GpuTable :=
  GpuTable.cons gpu_data gpu_table

/-- `EmptyGpuTable::DATA_COUNT = 0`, `Cons::DATA_COUNT = T::DATA_COUNT + 1`. -/
def GpuTable.data_count : GpuTable → Nat
  | .empty => 0
  | .cons _ tail => tail.data_count + 1

/-- `EmptyGpuTable::data_size = 0`,
`Cons::data_size = self.1.data_size() + self.0.size()`. -/
def GpuTable.data_size : GpuTable → Nat
  | .empty => 0
  | .cons head tail => tail.data_size + head.size

/-- `GpuData::size`: `0` for the empty table,
`size_of::<u32>() * Self::DATA_COUNT + self.data_size()` for a `Cons`. -/
def GpuTable.size : GpuTable → Nat
  | .empty => 0
  | t@(.cons _ _) => 4 * t.data_count + t.data_size

/-- An abstract destination: a writer state `σ` and the effect of one
`write_all` call, which either accepts the whole byte string or fails. -/
def WriteAll (σ ε : Type) := σ → Bytes → Except ε σ

/-- Issue a list of `write_all` calls in order, stopping at the first
failure and returning that error unchanged (the Rust `?` loop). -/
def write_chunks_into (wa : WriteAll σ ε) : List Bytes → σ → Except ε σ
  | [], s => .ok s
  | c :: l, s =>
    match wa s c with
    | .error e => .error e
    | .ok s => write_chunks_into wa l s

/-- `GpuData::write_into` for a block: perform its `write_all` calls in
order (a single bulk call for a slice, one call per element for an
iterator), propagating the first failure. -/
def Block.write_into (wa : WriteAll σ ε) (b : Block) (s : σ) : Except ε σ :=
  write_chunks_into wa b.chunks s

/-- `write_header_into`: the empty table writes nothing; a `Cons` first has
its tail write its header entries, then computes
`offset = data_offset + self.1.data_size()`,
`offset4 = (offset / size_of::<u32>()) as u32` and writes
`offset4.to_ne_bytes()`. -/
def GpuTable.write_header_into (wa : WriteAll σ ε) :
    GpuTable → Nat → σ → Except ε σ
  | .empty, _, s => .ok s
  | .cons _ tail, data_offset, s =>
    match tail.write_header_into wa data_offset s with
    | .error e => .error e
    | .ok s =>
      wa s (u32_to_ne_bytes ((data_offset + tail.data_size) / 4 % 2 ^ 32))

/-- `write_data_into`: the empty table writes nothing; a `Cons` first has
its tail write its data, then writes the head block. -/
def GpuTable.write_data_into (wa : WriteAll σ ε) :
    GpuTable → σ → Except ε σ
  | .empty, s => .ok s
  | .cons head tail, s =>
    match tail.write_data_into wa s with
    | .error e => .error e
    | .ok s => head.write_into wa s

/-- Top-level `GpuData::write_into`: `Ok(())` for the empty table; for a
`Cons`, `write_header_into(size_of::<u32>() * DATA_COUNT)` then
`write_data_into`, each failure propagated. -/
def GpuTable.write_into (wa : WriteAll σ ε) : GpuTable → σ → Except ε σ
  | .empty, s => .ok s
  | t@(.cons _ _), s =>
    match t.write_header_into wa (4 * t.data_count) s with
    | .error e => .error e
    | .ok s => t.write_data_into wa s

/-- `impl GpuData for &[T]` with `T: Pod`: `size` is
`size_of::<T>() * len`, and `write_into` is one bulk `write_all` of
`cast_slice(self)`, the concatenation of the elements byte images. -/
def slice_block (stride : Nat) (elems : List Bytes) : Block :=
  { size := stride * elems.length, chunks := [elems.flatten] }

/-- `GpuDataIter::from(iter)`: the size is computed at construction as
`size_of::<T>() * iter.clone().count()` (a clone of a pure sequence replays
the same elements, so the count is the length), the original sequence is
kept; `write_into` then writes `bytes_of(&data)` once per produced element,
in production order. -/
def gpu_data_iter_from (stride : Nat) (iter : List Bytes) : Block :=
  { size := stride * iter.length, chunks := iter }

/-- The single I/O error kind relevant here: `ErrorKind::WriteZero`, raised
by `write_all` on a cursor whose remaining capacity is exhausted. -/
inductive IoError where
  | writeZero
deriving Repr, DecidableEq

/-- `std::io::Cursor` over a fixed mutable byte slice of length `cap`:
`buf` is what has been written so far. -/
structure Cursor where
  cap : Nat
  buf : Bytes
deriving Repr, DecidableEq

/-- `write_all` on the cursor: succeeds exactly when the remaining capacity
holds the whole payload, otherwise fails with `WriteZero`. -/
def cursor_write_all : WriteAll Cursor IoError := fun s bs =>
  if s.buf.length + bs.length ≤ s.cap then .ok ⟨s.cap, s.buf ++ bs⟩
  else .error .writeZero

/-- An unbounded destination (`Vec<u8>`): `write_all` always succeeds and
appends. -/
def sink_write_all : WriteAll Bytes Empty := fun s bs => .ok (s ++ bs)

/-- The full byte output of a successful `write_into` into an unbounded
destination. -/
def GpuTable.output (t : GpuTable) : Bytes :=
  match t.write_into sink_write_all [] with
  | .ok s => s
  | .error e => e.elim

/-- The constituent blocks of a chain, in append order (the tail holds the
earlier blocks). -/
def GpuTable.blocks : GpuTable → List Block
  | .empty => []
  | .cons head tail => tail.blocks ++ [head]

/-- Appending blocks `B0, ..., B(N-1)` in that order onto the empty table. -/
def build_chain (bs : List Block) : GpuTable :=
  bs.foldl append_gpu_data GpuTable.empty

/-- Sum of the reported sizes of a list of blocks. -/
def size_sum (bs : List Block) : Nat := (bs.map Block.size).sum

/-- The header entry the specification predicts for block `i` of the chain
`B0, ..., B(N-1)`: `(4 * N + sum of sizes of the blocks before i) / 4`. -/
def header_entry (bs : List Block) (i : Nat) : Nat :=
  (4 * bs.length + size_sum (bs.take i)) / 4

/-- The `i`-th 4-byte header entry actually present in the emitted buffer,
decoded from bytes `4*i .. 4*i+4` of the output. -/
def nth_header_entry (t : GpuTable) (i : Nat) : Nat :=
  u32_of_ne_bytes ((t.output.drop (4 * i)).take 4)

/-- The `write_all` payloads `write_header_into` issues, in order. -/
def GpuTable.header_chunks : GpuTable → Nat → List Bytes
  | .empty, _ => []
  | .cons _ tail, data_offset =>
    tail.header_chunks data_offset ++
      [u32_to_ne_bytes ((data_offset + tail.data_size) / 4 % 2 ^ 32)]

/-- The `write_all` payloads `write_data_into` issues, in order. -/
def GpuTable.data_chunks : GpuTable → List Bytes
  | .empty => []
  | .cons head tail => tail.data_chunks ++ head.chunks

/-- The `write_all` payloads the top-level `write_into` issues, in order. -/
def GpuTable.write_chunks : GpuTable → List Bytes
  | .empty => []
  | t@(.cons _ _) => t.header_chunks (4 * t.data_count) ++ t.data_chunks

@[simp] lemma length_u32_to_ne_bytes (n : Nat) : (u32_to_ne_bytes n).length = 4 := rfl

lemma u32_of_to_ne_bytes (n : Nat) :
    u32_of_ne_bytes (u32_to_ne_bytes n) = n % 2 ^ 32 := by
  simp only [u32_to_ne_bytes, u32_of_ne_bytes]
  omega

lemma write_chunks_into_append (wa : WriteAll σ ε) (l1 l2 : List Bytes) (s : σ) :
    write_chunks_into wa (l1 ++ l2) s =
      match write_chunks_into wa l1 s with
      | .error e => .error e
      | .ok s1 => write_chunks_into wa l2 s1 := by
  induction l1 generalizing s with
  | nil => simp [write_chunks_into]
  | cons c l ih =>
    cases h : wa s c with
    | error e => simp [write_chunks_into, h]
    | ok s1 => simp [write_chunks_into, h, ih]

lemma write_header_into_eq (wa : WriteAll σ ε) (t : GpuTable) (off : Nat) (s : σ) :
    t.write_header_into wa off s = write_chunks_into wa (t.header_chunks off) s := by
  induction t generalizing s with
  | empty => rfl
  | cons head tail ih =>
    simp only [GpuTable.write_header_into, GpuTable.header_chunks,
      write_chunks_into_append, ih]
    cases write_chunks_into wa (tail.header_chunks off) s with
    | error e => rfl
    | ok s1 =>
      simp only [write_chunks_into]
      cases wa s1 (u32_to_ne_bytes ((off + tail.data_size) / 4 % 2 ^ 32)) <;> rfl

lemma write_data_into_eq (wa : WriteAll σ ε) (t : GpuTable) (s : σ) :
    t.write_data_into wa s = write_chunks_into wa t.data_chunks s := by
  induction t generalizing s with
  | empty => rfl
  | cons head tail ih =>
    simp only [GpuTable.write_data_into, GpuTable.data_chunks,
      write_chunks_into_append, ih]
    cases write_chunks_into wa tail.data_chunks s with
    | error e => rfl
    | ok s1 => rfl

lemma write_into_eq (wa : WriteAll σ ε) (t : GpuTable) (s : σ) :
    t.write_into wa s = write_chunks_into wa t.write_chunks s := by
  cases t with
  | empty => rfl
  | cons head tail =>
    simp only [GpuTable.write_into, GpuTable.write_chunks, write_chunks_into_append,
      write_header_into_eq, write_data_into_eq]

lemma sink_fold (l : List Bytes) (s : Bytes) :
    write_chunks_into sink_write_all l s = .ok (s ++ l.flatten) := by
  induction l generalizing s with
  | nil => simp [write_chunks_into]
  | cons c l ih => simp [write_chunks_into, sink_write_all, ih]

lemma output_eq (t : GpuTable) : t.output = t.write_chunks.flatten := by
  simp [GpuTable.output, write_into_eq, sink_fold]

lemma cursor_fold (l : List Bytes) (cap : Nat) (buf : Bytes) (h : buf.length ≤ cap) :
    write_chunks_into cursor_write_all l ⟨cap, buf⟩ =
      if buf.length + l.flatten.length ≤ cap then .ok ⟨cap, buf ++ l.flatten⟩
      else .error .writeZero := by
  induction l generalizing buf with
  | nil => simp [write_chunks_into, h]
  | cons c l ih =>
    simp only [write_chunks_into, cursor_write_all]
    by_cases hc : buf.length + c.length ≤ cap
    · rw [if_pos hc]
      show write_chunks_into cursor_write_all l ⟨cap, buf ++ c⟩ = _
      rw [ih (buf ++ c) (by simpa using hc)]
      simp [List.flatten_cons, List.append_assoc, Nat.add_assoc]
    · rw [if_neg hc, if_neg (by simp [List.flatten_cons]; omega)]

lemma data_count_eq_length (t : GpuTable) : t.data_count = t.blocks.length := by
  induction t <;> simp [GpuTable.data_count, GpuTable.blocks, *]

lemma data_size_eq_size_sum (t : GpuTable) : t.data_size = size_sum t.blocks := by
  induction t <;> simp [GpuTable.data_size, GpuTable.blocks, size_sum, *]

lemma data_chunks_eq (t : GpuTable) :
    t.data_chunks = (t.blocks.map Block.chunks).flatten := by
  induction t <;> simp [GpuTable.data_chunks, GpuTable.blocks, *]

lemma size_eq (t : GpuTable) : t.size = 4 * t.data_count + t.data_size := by
  cases t <;> simp [GpuTable.size, GpuTable.data_count, GpuTable.data_size]

lemma header_chunks_eq_map (t : GpuTable) (off : Nat) :
    t.header_chunks off = (List.range t.blocks.length).map
      (fun i => u32_to_ne_bytes ((off + size_sum (t.blocks.take i)) / 4 % 2 ^ 32)) := by
  induction t with
  | empty => simp [GpuTable.header_chunks, GpuTable.blocks]
  | cons head tail ih =>
    have hr : List.range (tail.blocks.length + 1) =
        List.range tail.blocks.length ++ [tail.blocks.length] := by
      rw [List.range_succ]
    simp only [GpuTable.header_chunks, GpuTable.blocks, ih, List.length_append,
      List.length_singleton, hr, List.map_append, List.map_cons, List.map_nil]
    congr 1
    · apply List.map_congr_left
      intro i hi
      rw [List.take_append_of_le_length (List.mem_range.mp hi).le]
    · rw [List.take_left, data_size_eq_size_sum]

lemma foldl_append_blocks (bs : List Block) (t : GpuTable) :
    (bs.foldl append_gpu_data t).blocks = t.blocks ++ bs := by
  induction bs generalizing t with
  | nil => simp
  | cons b bs ih =>
    simp [List.foldl_cons, ih, append_gpu_data, GpuTable.blocks]

lemma build_chain_blocks (bs : List Block) : (build_chain bs).blocks = bs := by
  simp [build_chain, foldl_append_blocks, GpuTable.blocks]

lemma header_chunks_flatten_length (t : GpuTable) (off : Nat) :
    (t.header_chunks off).flatten.length = 4 * t.data_count := by
  induction t with
  | empty => rfl
  | cons head tail ih =>
    simp [GpuTable.header_chunks, GpuTable.data_count, ih]
    omega

lemma data_chunks_flatten_length (t : GpuTable)
    (h : ∀ b ∈ t.blocks, b.chunks.flatten.length = b.size) :
    t.data_chunks.flatten.length = t.data_size := by
  induction t with
  | empty => rfl
  | cons head tail ih =>
    have hh : head.chunks.flatten.length = head.size :=
      h head (by simp [GpuTable.blocks])
    have ht : ∀ b ∈ tail.blocks, b.chunks.flatten.length = b.size :=
      fun b hb => h b (by simp [GpuTable.blocks, hb])
    simp [GpuTable.data_chunks, GpuTable.data_size, ih ht, hh]

lemma output_decomp (t : GpuTable) :
    t.output = (t.header_chunks (4 * t.data_count)).flatten ++
      t.data_chunks.flatten := by
  rw [output_eq]
  cases t with
  | empty => rfl
  | cons head tail => simp [GpuTable.write_chunks]

lemma flatten_nth_of_length4 (l : List Bytes) (rest : Bytes) (i : Nat)
    (h4 : ∀ c ∈ l, c.length = 4) (hi : i < l.length) :
    ((l.flatten ++ rest).drop (4 * i)).take 4 = l.getD i [] := by
  induction l generalizing i rest with
  | nil => simp at hi
  | cons c l ih =>
    have hc : c.length = 4 := h4 c (by simp)
    cases i with
    | zero =>
      simp only [Nat.mul_zero, List.drop_zero, List.flatten_cons,
        List.append_assoc, List.getD_cons_zero]
      rw [← hc, List.take_left]
    | succ i =>
      have h4i : 4 * (i + 1) = c.length + 4 * i := by omega
      rw [List.getD_cons_succ, h4i, List.flatten_cons, List.append_assoc,
        ← List.drop_drop, List.drop_left]
      exact ih rest i (fun d hd => h4 d (by simp [hd])) (by simpa using hi)

lemma nth_header_entry_eq (bs : List Block) (i : Nat) (hi : i < bs.length) :
    nth_header_entry (build_chain bs) i = header_entry bs i % 2 ^ 32 := by
  have hb := build_chain_blocks bs
  have hcnt := data_count_eq_length (build_chain bs)
  rw [nth_header_entry, output_decomp,
    header_chunks_eq_map (build_chain bs) (4 * (build_chain bs).data_count),
    hb, hcnt, hb]
  rw [flatten_nth_of_length4 _ _ i
    (by intro c hc
        obtain ⟨j, _, rfl⟩ := List.mem_map.mp hc
        exact length_u32_to_ne_bytes _)
    (by simpa using hi)]
  rw [List.getD_eq_getElem _ _ (by simpa using hi)]
  simp only [List.getElem_map, List.getElem_range]
  rw [u32_of_to_ne_bytes]
  simp only [header_entry]
  omega

lemma flatten_map_chunks (bs : List Block) :
    ((bs.map Block.chunks).flatten).flatten =
      (bs.map (fun b => b.chunks.flatten)).flatten := by
  induction bs <;> simp [*]

lemma write_chunks_flatten_length (t : GpuTable)
    (h : ∀ b ∈ t.blocks, b.chunks.flatten.length = b.size) :
    t.write_chunks.flatten.length = t.size := by
  cases t with
  | empty => rfl
  | cons head tail =>
    rw [size_eq]
    simp only [GpuTable.write_chunks, List.flatten_append, List.length_append,
      header_chunks_flatten_length, data_chunks_flatten_length _ h]

lemma write_into_sink_ok (t : GpuTable) :
    t.write_into sink_write_all [] = .ok t.output := by
  rw [write_into_eq, sink_fold, output_eq]
  simp

/-- Claim C4: the block count (`DATA_COUNT`) of the table obtained by
appending N blocks onto the empty table is N; the empty table counts 0 and
each `Cons` node counts its tail plus one. -/
theorem claim_C4_count (bs : List Block) :
    (build_chain bs).data_count = bs.length ∧
    GpuTable.empty.data_count = 0 ∧
    ∀ (h : Block) (t : GpuTable),
      (GpuTable.cons h t).data_count = t.data_count + 1 := by
  refine ⟨?_, rfl, fun h t => rfl⟩
  rw [data_count_eq_length, build_chain_blocks]

/-- Claim C2: for a chain built by appending B0, ..., B(N-1) in that order,
the output of `write_into` is the header followed by exactly the
concatenation of the bytes of B0, then B1, ..., then B(N-1), with no gaps
or overlaps; the header part occupies 4*N bytes. -/
theorem claim_C2_data_order (bs : List Block) :
    (build_chain bs).output =
      ((build_chain bs).header_chunks (4 * bs.length)).flatten ++
        (bs.map (fun b => b.chunks.flatten)).flatten ∧
    ((build_chain bs).header_chunks (4 * bs.length)).flatten.length =
      4 * bs.length := by
  constructor
  · have h := output_decomp (build_chain bs)
    rw [data_count_eq_length, build_chain_blocks] at h
    rw [h, data_chunks_eq, build_chain_blocks, flatten_map_chunks]
  · rw [header_chunks_flatten_length, data_count_eq_length, build_chain_blocks]

/-- Claim C3: provided every block writes exactly the bytes its size
reports, the emitted output has length 4 * block_count + data_size, the
header occupies the first 4 * block_count bytes and the data section the
remainder; `size` reports this same total and `data_size` is the sum of the
constituent block sizes. -/
theorem claim_C3_sizes (bs : List Block)
    (hwf : ∀ b ∈ bs, b.chunks.flatten.length = b.size) :
    (build_chain bs).output.length =
      4 * (build_chain bs).data_count + (build_chain bs).data_size ∧
    (build_chain bs).output.take (4 * (build_chain bs).data_count) =
      ((build_chain bs).header_chunks (4 * (build_chain bs).data_count)).flatten ∧
    (build_chain bs).output.drop (4 * (build_chain bs).data_count) =
      (build_chain bs).data_chunks.flatten ∧
    (build_chain bs).size =
      4 * (build_chain bs).data_count + (build_chain bs).data_size ∧
    (build_chain bs).data_size = size_sum bs := by
  have hb : ∀ b ∈ (build_chain bs).blocks, b.chunks.flatten.length = b.size := by
    rw [build_chain_blocks]; exact hwf
  have hhl := header_chunks_flatten_length (build_chain bs)
    (4 * (build_chain bs).data_count)
  have hdl := data_chunks_flatten_length (build_chain bs) hb
  refine ⟨?_, ?_, ?_, size_eq _, by
    rw [data_size_eq_size_sum, build_chain_blocks]⟩
  · rw [output_decomp]
    simp [hhl, hdl]
  · rw [output_decomp, List.take_left' hhl]
  · rw [output_decomp, List.drop_left' hhl]

/-- Witness blocks for claim C3. -/
def c3_blocks : List Block :=
  [Block.mk 4 [[1, 2, 3, 4]], Block.mk 8 [[5, 6, 7, 8], [9, 10, 11, 12]]]

/-- Claim C3 witness at a concrete two-block chain. -/
theorem claim_C3_sizes_witness :
    (build_chain c3_blocks).output.length =
      4 * (build_chain c3_blocks).data_count + (build_chain c3_blocks).data_size ∧
    (build_chain c3_blocks).output.take (4 * (build_chain c3_blocks).data_count) =
      ((build_chain c3_blocks).header_chunks
        (4 * (build_chain c3_blocks).data_count)).flatten ∧
    (build_chain c3_blocks).output.drop (4 * (build_chain c3_blocks).data_count) =
      (build_chain c3_blocks).data_chunks.flatten ∧
    (build_chain c3_blocks).size =
      4 * (build_chain c3_blocks).data_count + (build_chain c3_blocks).data_size ∧
    (build_chain c3_blocks).data_size = size_sum c3_blocks :=
  claim_C3_sizes c3_blocks (by decide)

/-- Claim C1 as stated is false: with blocks of reported sizes 2^34 and 4
appended in that order, the second header entry in the emitted buffer
decodes to 2, while (4*2 + 2^34) / 4 = 2^32 + 2; the `as u32` narrowing in
`write_header_into` silently wraps the word offset.  (The header bytes
depend only on the block sizes, never on the block payloads.) -/
theorem claim_C1_counterexample :
    nth_header_entry
        (build_chain [Block.mk (2 ^ 34) [], Block.mk 4 [[9, 9, 9, 9]]]) 1 ≠
      header_entry [Block.mk (2 ^ 34) [], Block.mk 4 [[9, 9, 9, 9]]] 1 := by
  decide

/-- Claim C1 (amended): a successful top-level `write_into` emits the
header first, and the i-th 4-byte header entry equals
(4*N + sum of byte_size(Bj) for j < i) / 4 reduced modulo 2^32 — equal to
the untruncated word offset whenever that offset fits in a u32. -/
theorem claim_C1_header_order (bs : List Block) (i : Nat)
    (hi : i < bs.length) :
    (build_chain bs).output =
      ((build_chain bs).header_chunks (4 * bs.length)).flatten ++
        (build_chain bs).data_chunks.flatten ∧
    nth_header_entry (build_chain bs) i = header_entry bs i % 2 ^ 32 := by
  constructor
  · have h := output_decomp (build_chain bs)
    rwa [data_count_eq_length, build_chain_blocks] at h
  · exact nth_header_entry_eq bs i hi

/-- Witness blocks for claim C1. -/
def c1_blocks : List Block :=
  [Block.mk 4 [[1, 2, 3, 4]], Block.mk 4 [[5, 6, 7, 8]]]

/-- Claim C1 witness: two 4-byte blocks; entry 1 is (8 + 4) / 4 = 3. -/
theorem claim_C1_header_order_witness :
    (1 < c1_blocks.length) ∧
    ((build_chain c1_blocks).output =
      ((build_chain c1_blocks).header_chunks (4 * c1_blocks.length)).flatten ++
        (build_chain c1_blocks).data_chunks.flatten ∧
    nth_header_entry (build_chain c1_blocks) 1 =
      header_entry c1_blocks 1 % 2 ^ 32) :=
  ⟨by decide, claim_C1_header_order c1_blocks 1 (by decide)⟩

/-- Claim C10: each header entry is the word offset reduced modulo 2^32 (the
`as u32` narrowing); whenever the word offset exceeds u32::MAX the stored
entry differs from the true word offset, and no failure is signalled. -/
theorem claim_C10_u32_wrap (bs : List Block) (i : Nat) (hi : i < bs.length) :
    nth_header_entry (build_chain bs) i = header_entry bs i % 2 ^ 32 ∧
    (2 ^ 32 ≤ header_entry bs i →
      nth_header_entry (build_chain bs) i ≠ header_entry bs i) ∧
    (build_chain bs).write_into sink_write_all [] =
      .ok ((build_chain bs).output) := by
  refine ⟨nth_header_entry_eq bs i hi, fun hbig => ?_, write_into_sink_ok _⟩
  rw [nth_header_entry_eq bs i hi]
  have hlt : header_entry bs i % 2 ^ 32 < 2 ^ 32 :=
    Nat.mod_lt _ (by norm_num)
  omega

/-- Witness blocks for claim C10: first block reports 2^35 bytes. -/
def c10_blocks : List Block := [Block.mk (2 ^ 35) [], Block.mk 4 [[9, 9, 9, 9]]]

/-- Claim C10 witness: entry 1 would be (8 + 2^35)/4 = 2^33 + 2, which
exceeds u32::MAX; the emitted entry is the wrapped value and differs. -/
theorem claim_C10_u32_wrap_witness :
    (1 < c10_blocks.length) ∧ (2 ^ 32 ≤ header_entry c10_blocks 1) ∧
    nth_header_entry (build_chain c10_blocks) 1 =
      header_entry c10_blocks 1 % 2 ^ 32 ∧
    nth_header_entry (build_chain c10_blocks) 1 ≠ header_entry c10_blocks 1 ∧
    (build_chain c10_blocks).write_into sink_write_all [] =
      .ok ((build_chain c10_blocks).output) :=
  ⟨by decide, by decide,
   (claim_C10_u32_wrap c10_blocks 1 (by decide)).1,
   (claim_C10_u32_wrap c10_blocks 1 (by decide)).2.1 (by decide),
   (claim_C10_u32_wrap c10_blocks 1 (by decide)).2.2⟩

/-- Claim C9 as stated is false at an extreme input: for blocks of reported
sizes 2^34 + 1 (not a multiple of 4) and 4, the byte offset of the second
block is 8 + (2^34 + 1), which is misaligned, but the emitted entry is not
the floor division (2^34 + 9) / 4 = 2^32 + 2 — the `as u32` cast wraps it
to 2. -/
theorem claim_C9_counterexample :
    ((4 * 2 + size_sum ([Block.mk (2 ^ 34 + 1) [],
        Block.mk 4 [[9, 9, 9, 9]]].take 1)) % 4 ≠ 0) ∧
    nth_header_entry
        (build_chain [Block.mk (2 ^ 34 + 1) [], Block.mk 4 [[9, 9, 9, 9]]]) 1 ≠
      header_entry [Block.mk (2 ^ 34 + 1) [], Block.mk 4 [[9, 9, 9, 9]]] 1 := by
  decide

/-- Claim C9 (amended): whenever the byte offset of a block is not a multiple of
4, provided the word offset fits in u32, the affected header entry is the
integer floor division of the byte offset by 4 (so multiplying back by 4
does not recover the byte offset); no error is raised and no runtime check
detects the misalignment. -/
theorem claim_C9_truncation (bs : List Block) (i : Nat) (hi : i < bs.length)
    (hmis : (4 * bs.length + size_sum (bs.take i)) % 4 ≠ 0)
    (hfit : header_entry bs i < 2 ^ 32) :
    nth_header_entry (build_chain bs) i = header_entry bs i ∧
    4 * header_entry bs i ≠ 4 * bs.length + size_sum (bs.take i) ∧
    (build_chain bs).write_into sink_write_all [] =
      .ok ((build_chain bs).output) := by
  refine ⟨?_, ?_, write_into_sink_ok _⟩
  · rw [nth_header_entry_eq bs i hi, Nat.mod_eq_of_lt hfit]
  · simp only [header_entry]
    omega

/-- Witness blocks for claim C9: a 3-byte block followed by a 1-byte block. -/
def c9_blocks : List Block := [Block.mk 3 [[7, 7, 7]], Block.mk 1 [[8]]]

/-- Claim C9 witness: the second block sits at byte offset 8 + 3 = 11;
its entry is 11 / 4 = 2 and 4 * 2 ≠ 11. -/
theorem claim_C9_truncation_witness :
    (1 < c9_blocks.length) ∧
    ((4 * c9_blocks.length + size_sum (c9_blocks.take 1)) % 4 ≠ 0) ∧
    (header_entry c9_blocks 1 < 2 ^ 32) ∧
    (nth_header_entry (build_chain c9_blocks) 1 = header_entry c9_blocks 1 ∧
     4 * header_entry c9_blocks 1 ≠
       4 * c9_blocks.length + size_sum (c9_blocks.take 1) ∧
     (build_chain c9_blocks).write_into sink_write_all [] =
       .ok ((build_chain c9_blocks).output)) :=
  ⟨by decide, by decide, by decide,
   claim_C9_truncation c9_blocks 1 (by decide) (by decide) (by decide)⟩

/-- Claim C5: provided every block writes exactly the bytes its size
reports, `write_into` into a destination of capacity exactly
header_byte_size + data_byte_size (= `size`) succeeds and fills it with
exactly that many bytes, while a destination one byte smaller fails with a
write error. -/
theorem claim_C5_capacity (bs : List Block)
    (hwf : ∀ b ∈ bs, b.chunks.flatten.length = b.size) :
    (build_chain bs).write_into cursor_write_all
        ⟨(build_chain bs).size, []⟩ =
      .ok ⟨(build_chain bs).size, (build_chain bs).output⟩ ∧
    (build_chain bs).output.length = (build_chain bs).size ∧
    (0 < (build_chain bs).size →
      (build_chain bs).write_into cursor_write_all
          ⟨(build_chain bs).size - 1, []⟩ = .error .writeZero) := by
  have hb : ∀ b ∈ (build_chain bs).blocks, b.chunks.flatten.length = b.size := by
    rw [build_chain_blocks]; exact hwf
  have hlen := write_chunks_flatten_length (build_chain bs) hb
  refine ⟨?_, ?_, fun hpos => ?_⟩
  · rw [write_into_eq, cursor_fold _ _ _ (by simp), hlen, output_eq]
    simp
  · rw [output_eq, hlen]
  · rw [write_into_eq, cursor_fold _ _ _ (by simp), hlen]
    rw [if_neg (by omega)]

/-- Witness blocks for claim C5. -/
def c5_blocks : List Block :=
  [Block.mk 4 [[1, 0, 0, 0]], Block.mk 8 [[2, 0, 0, 0], [3, 0, 0, 0]]]

/-- Claim C5 witness: a 20-byte chain succeeds at capacity 20 and fails at
capacity 19. -/
theorem claim_C5_capacity_witness :
    (build_chain c5_blocks).write_into cursor_write_all
        ⟨(build_chain c5_blocks).size, []⟩ =
      .ok ⟨(build_chain c5_blocks).size, (build_chain c5_blocks).output⟩ ∧
    (build_chain c5_blocks).output.length = (build_chain c5_blocks).size ∧
    (0 < (build_chain c5_blocks).size) ∧
    (build_chain c5_blocks).write_into cursor_write_all
        ⟨(build_chain c5_blocks).size - 1, []⟩ = .error .writeZero :=
  ⟨(claim_C5_capacity c5_blocks (by decide)).1,
   (claim_C5_capacity c5_blocks (by decide)).2.1,
   by decide,
   (claim_C5_capacity c5_blocks (by decide)).2.2 (by decide)⟩

/-- Claim C6: for every chain and every destination, if the writes made so
far succeeded and the next `write_all` call fails, the whole `write_into`
returns that error unchanged; the remaining payloads (`l2`) are never
consulted, so nothing is written after the failing write and no retry or
rollback happens. -/
theorem claim_C6_error_propagation {σ ε : Type} (wa : WriteAll σ ε)
    (t : GpuTable) (l1 : List Bytes) (c : Bytes) (l2 : List Bytes)
    (s s1 : σ) (e : ε)
    (hsplit : t.write_chunks = l1 ++ c :: l2)
    (h1 : write_chunks_into wa l1 s = .ok s1)
    (hc : wa s1 c = .error e) :
    t.write_into wa s = .error e := by
  rw [write_into_eq, hsplit, write_chunks_into_append, h1]
  simp [write_chunks_into, hc]

/-- Witness table for claim C6: one 4-byte block. -/
def c6_table : GpuTable := build_chain [Block.mk 4 [[9, 9, 9, 9]]]

/-- Claim C6 witness: into a 3-byte cursor, the very first write (header
entry 1) fails and `write_into` returns `WriteZero` with the data payload
never attempted. -/
theorem claim_C6_error_propagation_witness :
    c6_table.write_chunks = [] ++ u32_to_ne_bytes 1 :: [[9, 9, 9, 9]] ∧
    write_chunks_into cursor_write_all [] (⟨3, []⟩ : Cursor) =
      .ok (⟨3, []⟩ : Cursor) ∧
    cursor_write_all ⟨3, []⟩ (u32_to_ne_bytes 1) = .error .writeZero ∧
    c6_table.write_into cursor_write_all ⟨3, []⟩ = .error .writeZero :=
  ⟨rfl, rfl, rfl,
   claim_C6_error_propagation cursor_write_all c6_table []
     (u32_to_ne_bytes 1) [[9, 9, 9, 9]] ⟨3, []⟩ ⟨3, []⟩ .writeZero
     rfl rfl rfl⟩

/-- Claim C7: a slice block reports size element_stride * element_count,
and its write is a single bulk `write_all` whose payload is exactly the
concatenation of the element byte images, in element order. -/
theorem claim_C7_slice (stride : Nat) (elems : List Bytes) :
    (slice_block stride elems).size = stride * elems.length ∧
    (slice_block stride elems).chunks = [elems.flatten] ∧
    Block.write_into sink_write_all (slice_block stride elems) [] =
      .ok elems.flatten := by
  refine ⟨rfl, rfl, ?_⟩
  show write_chunks_into sink_write_all [elems.flatten] [] = _
  rw [sink_fold]
  simp

/-- Claim C8: a sequence block computes its size at construction as the
stride times the number of elements of a replayed copy of the sequence
(the pure sequence is unchanged by the replay); `write` then emits each
bytes of each produced value in production order, for a total of exactly `size`
bytes when each element image has length equal to the stride. -/
theorem claim_C8_sequence (stride : Nat) (iter : List Bytes) :
    (gpu_data_iter_from stride iter).size = stride * iter.length ∧
    (gpu_data_iter_from stride iter).chunks = iter ∧
    Block.write_into sink_write_all (gpu_data_iter_from stride iter) [] =
      .ok iter.flatten ∧
    ((∀ x ∈ iter, x.length = stride) →
      iter.flatten.length = (gpu_data_iter_from stride iter).size) := by
  refine ⟨rfl, rfl, ?_, fun h => ?_⟩
  · show write_chunks_into sink_write_all iter [] = _
    rw [sink_fold]
    simp
  · rw [List.length_flatten, List.map_congr_left h, List.map_const']
    simp [List.sum_replicate, smul_eq_mul, gpu_data_iter_from, Nat.mul_comm]

/-- Claim C8 witness: stride 4 with two 4-byte elements gives size 8 and an
8-byte output. -/
theorem claim_C8_sequence_witness :
    (gpu_data_iter_from 4 [[1, 2, 3, 4], [5, 6, 7, 8]]).size = 4 * 2 ∧
    (gpu_data_iter_from 4 [[1, 2, 3, 4], [5, 6, 7, 8]]).chunks =
      [[1, 2, 3, 4], [5, 6, 7, 8]] ∧
    Block.write_into sink_write_all
        (gpu_data_iter_from 4 [[1, 2, 3, 4], [5, 6, 7, 8]]) [] =
      .ok [1, 2, 3, 4, 5, 6, 7, 8] ∧
    ([[1, 2, 3, 4], [5, 6, 7, 8]] : List Bytes).flatten.length =
      (gpu_data_iter_from 4 [[1, 2, 3, 4], [5, 6, 7, 8]]).size :=
  ⟨(claim_C8_sequence 4 [[1, 2, 3, 4], [5, 6, 7, 8]]).1,
   (claim_C8_sequence 4 [[1, 2, 3, 4], [5, 6, 7, 8]]).2.1,
   (claim_C8_sequence 4 [[1, 2, 3, 4], [5, 6, 7, 8]]).2.2.1,
   (claim_C8_sequence 4 [[1, 2, 3, 4], [5, 6, 7, 8]]).2.2.2 (by decide)⟩

end GpuWriter
